import Mathlib

/-!
Shallow embedding of the image post-processing pipeline of
`VD_Hourly_Whatsapp.py` and `vd_pdf_report.py`: whitespace trimming by
pixel-difference bounding boxes, and size-budgeted JPEG re-encoding.

The PIL primitives (`Image.new`, `ImageChops.difference`,
`ImageChops.add`, `ImageEnhance.Contrast(..).enhance`, `getbbox`, `crop`)
are modelled at the pixel level from their C implementations in Pillow;
JPEG encoding and resampling, which are not arithmetic on pixels the
claims inspect, are abstract operations of a `PILOps` structure.
-/

namespace VD

/-! ### Raster images (model of a decoded PIL `Image` in mode RGB)

A decoded raster: width, height, and a pixel function returning the
(R, G, B) channel triple.  Channel values of well-formed images lie in
`[0, 255]`; theorems that need this bound assume it explicitly. -/

structure PImage where
  width : Nat
  height : Nat
  px : Nat → Nat → Nat × Nat × Nat

/-- `Image.new(mode, size, color)`: a uniform image filled with one color. -/
def uniformImage (w h : Nat) (c : Nat × Nat × Nat) : PImage :=
  ⟨w, h, fun _ _ => c⟩

/-- Per-channel absolute difference of two pixels. -/
def rgbDiff (a b : Nat × Nat × Nat) : Nat × Nat × Nat :=
  (Nat.dist a.1 b.1, Nat.dist a.2.1 b.2.1, Nat.dist a.2.2 b.2.2)

/-- `ImageChops.difference(a, b)`: per-pixel absolute difference. -/
def difference (a b : PImage) : PImage :=
  ⟨a.width, a.height, fun x y => rgbDiff (a.px x y) (b.px x y)⟩

/-- A pixel counts as content for `getbbox` when some channel is non-zero. -/
def pxNonzero (c : Nat × Nat × Nat) : Bool :=
  decide (c ≠ (0, 0, 0))

/-- Columns of `img` containing at least one non-zero pixel. -/
def contentCols (img : PImage) : Finset Nat :=
  (Finset.range img.width).filter fun x =>
    ∃ y ∈ Finset.range img.height, pxNonzero (img.px x y) = true

/-- Rows of `img` containing at least one non-zero pixel. -/
def contentRows (img : PImage) : Finset Nat :=
  (Finset.range img.height).filter fun y =>
    ∃ x ∈ Finset.range img.width, pxNonzero (img.px x y) = true

/-- `Image.getbbox()`: the bounding box `(x0, y0, x1, y1)` (left/top
inclusive, right/bottom exclusive) of all non-zero pixels, or `none`
when every pixel is zero. -/
def getbbox (img : PImage) : Option (Nat × Nat × Nat × Nat) :=
  if h : (contentCols img).Nonempty ∧ (contentRows img).Nonempty then
    some ((contentCols img).min' h.1, (contentRows img).min' h.2,
      (contentCols img).max' h.1 + 1, (contentRows img).max' h.2 + 1)
  else
    none

/-- `Image.crop((x0, y0, x1, y1))`. -/
def crop (img : PImage) (b : Nat × Nat × Nat × Nat) : PImage :=
  ⟨b.2.2.1 - b.1, b.2.2.2 - b.2.1, fun x y => img.px (x + b.1) (y + b.2.1)⟩

/-- Pillow `convert("L")` luminance of one RGB pixel: `L24(rgb) >> 16`
with the fixed-point coefficients `19595, 38470, 7471` (summing to
`65536`), truncating. -/
def luminanceL (c : Nat × Nat × Nat) : Nat :=
  (19595 * c.1 + 38470 * c.2.1 + 7471 * c.2.2) / 65536

/-- Sum of the luminances of all in-range pixels. -/
def lumSum (img : PImage) : Nat :=
  ∑ x ∈ Finset.range img.width, ∑ y ∈ Finset.range img.height, luminanceL (img.px x y)

/-- `int(ImageStat.Stat(image.convert("L")).mean[0] + 0.5)` of
`ImageEnhance.Contrast`: the mean luminance rounded half-up (modelled in
exact arithmetic: `(2 * s + n) / (2 * n)` is `floor(s / n + 1 / 2)`). -/
def contrastMean (img : PImage) : Nat :=
  (2 * lumSum img + img.width * img.height) / (2 * (img.width * img.height))

/-- One channel of `Image.blend(degenerate, image, 3.0)` where
`degenerate` is the uniform gray of value `m`: the C `ImagingBlend`
routine computes `m + 3.0 * (p - m) = 3 * p - 2 * m` (exact on these
integers) and clamps to `[0, 255]`. -/
def blendChannel (m p : Nat) : Nat :=
  (max 0 (min 255 (3 * (p : Int) - 2 * (m : Int)))).toNat

/-- `ImageEnhance.Contrast(img).enhance(3.0)`. -/
def contrast3 (img : PImage) : PImage :=
  ⟨img.width, img.height, fun x y =>
    (blendChannel (contrastMean img) (img.px x y).1,
     blendChannel (contrastMean img) (img.px x y).2.1,
     blendChannel (contrastMean img) (img.px x y).2.2)⟩

/-- The image whose bounding box `crop_white_space` extracts: the
contrast-amplified difference of the input against the uniform image of
the (0, 0) pixel color. -/
def cropDiff (img : PImage) : PImage :=
  contrast3 (difference img (uniformImage img.width img.height (img.px 0 0)))

/-- `crop_white_space` (`VD_Hourly_Whatsapp.py`, lines 87-92):
background = `img.getpixel((0, 0))`, difference, contrast enhance 3.0,
crop to `getbbox` when present, else return the image unchanged. -/
def crop_white_space (img : PImage) : PImage :=
  match getbbox (cropDiff img) with
  | some bbox => crop img bbox
  | none => img

/-- One channel of `ImageChops.add(diff, diff, 2.0, -100)`: the C
`ImagingChopAdd` routine computes `(c + c) / 2.0 + offset` (exact: the
numerator is even), truncates to `int` and clamps to `[0, 255]`. -/
def chopsAddSelfOffset (off : Int) (c : Nat) : Nat :=
  (max 0 (min 255 (((c : Int) + c) / 2 + off))).toNat

/-- The image whose bounding box `trim_white_space` extracts: the
`ImageChops.add(diff, diff, 2.0, -100)` amplification of the difference
of the input against the uniform white `(255, 255, 255)` image. -/
def trimDiff (img : PImage) : PImage :=
  let d := difference img (uniformImage img.width img.height (255, 255, 255))
  ⟨d.width, d.height, fun x y =>
    (chopsAddSelfOffset (-100) (d.px x y).1,
     chopsAddSelfOffset (-100) (d.px x y).2.1,
     chopsAddSelfOffset (-100) (d.px x y).2.2)⟩

/-- `trim_white_space` (`vd_pdf_report.py`, lines 62-74): white
background, amplified difference, and when a bounding box exists it is
expanded by `padding = 15` on each side, clamped below by `0`
(`max(0, b - 15)`) and above by the image width and height
(`min(size, b + 15)`), before cropping. -/
def trim_white_space (img : PImage) : PImage :=
  match getbbox (trimDiff img) with
  | some bbox =>
      crop img ((max 0 ((bbox.1 : Int) - 15)).toNat,
        (max 0 ((bbox.2.1 : Int) - 15)).toNat,
        (min (img.width : Int) ((bbox.2.2.1 : Int) + 15)).toNat,
        (min (img.height : Int) ((bbox.2.2.2 : Int) + 15)).toNat)
  | none => img

/-- Modelled from the spec: claim C8 reads the bounding box of
`crop_white_space` as extracted from the raw difference image itself
(no amplification step in between).  Kept only to compare with the
source definition. -/
def crop_white_space_rawdiff (img : PImage) : PImage :=
  match getbbox (difference img (uniformImage img.width img.height (img.px 0 0))) with
  | some bbox => crop img bbox
  | none => img

/-- Modelled from the spec: claim C9's amplification formula
`3.0 * d - 100`, clamped to the channel range.  Kept only to compare
with the source amplification `chopsAddSelfOffset (-100)`. -/
def affineAmp3 (d : Nat) : Nat :=
  (max 0 (min 255 (3 * (d : Int) - 100))).toNat

/-! ### The size-budgeted encoder (`optimize_image`) -/

/-- `TARGET_SIZE_BYTES = 4 * 1024 * 1024` (`VD_Hourly_Whatsapp.py`,
line 38), the byte budget the script compares every encoding against.
The theorems below quantify over an arbitrary budget. -/
def TARGET_SIZE_BYTES : Nat := 4 * 1024 * 1024

/-- `JPEG_QUALITIES` (`VD_Hourly_Whatsapp.py`, line 39). -/
def JPEG_QUALITIES : List Nat := [95, 85, 75, 65, 55]

/-- The PIL operations `optimize_image` uses, abstract in the image
type: mode query, conversion to RGB, size query, resize, and JPEG
encoding at a quality (`jpg_bytes`, returning the encoded bytes). -/
structure PILOps (α : Type) where
  mode : α → String
  convertRGB : α → α
  size : α → Nat × Nat
  resize : α → Nat → Nat → α
  jpgBytes : α → Nat → List Nat

/-- `if img.mode != "RGB": img = img.convert("RGB")` (lines 67-68). -/
def normalizeRGB {α : Type} (ops : PILOps α) (img : α) : α :=
  if ops.mode img = "RGB" then img else ops.convertRGB img

/-- The quality-ladder loop of `optimize_image` (lines 70-74): encode at
each quality in turn, return the first encoding within budget. -/
def ladderLoop {α : Type} (ops : PILOps α) (budget : Nat) (img : α) : List Nat → Option (List Nat)
  | [] => none
  | q :: qs =>
    let data := ops.jpgBytes img q
    if data.length ≤ budget then some data else ladderLoop ops budget img qs

/-- One downscale round (lines 78-80): `w = int(w * 0.96)`,
`h = int(h * 0.96)` (in exact arithmetic `int(w * 0.96) = 96 * w / 100`,
truncated), then resize to the new size.  The state carries the current
image together with the tracked `w, h` variables of the Python code. -/
def downscaleStep {α : Type} (ops : PILOps α) (s : α × Nat × Nat) : α × Nat × Nat :=
  (ops.resize s.1 (96 * s.2.1 / 100) (96 * s.2.2 / 100), 96 * s.2.1 / 100, 96 * s.2.2 / 100)

/-- The downscale loop of `optimize_image` (lines 77-85): up to `n`
rounds, re-encode at quality 65, return the first encoding within
budget; `data` holds the most recent encoding and is returned as-is
when the rounds run out (`return data` after the loop). -/
def downscaleLoop {α : Type} (ops : PILOps α) (budget : Nat) :
    Nat → α × Nat × Nat → List Nat → List Nat
  | 0, _, data => data
  | n + 1, s, _ =>
    let s2 := downscaleStep ops s
    let data := ops.jpgBytes s2.1 65
    if data.length ≤ budget then data else downscaleLoop ops budget n s2 data

/-- `w, h = img.size` (line 76): the initial state of the downscale loop. -/
def initState {α : Type} (ops : PILOps α) (img : α) : α × Nat × Nat :=
  (img, (ops.size img).1, (ops.size img).2)

/-- `optimize_image` (`VD_Hourly_Whatsapp.py`, lines 66-85), with the
byte budget a parameter (the script instantiates it with
`TARGET_SIZE_BYTES`).  When the whole ladder fails, the Python `data`
variable holds the quality-55 encoding; that value is what the
downscale loop would return if it ran zero rounds. -/
def optimize_image {α : Type} (ops : PILOps α) (budget : Nat) (img0 : α) : List Nat :=
  let img := normalizeRGB ops img0
  match ladderLoop ops budget img JPEG_QUALITIES with
  | some data => data
  | none => downscaleLoop ops budget 3 (initState ops img) (ops.jpgBytes img 55)

/-- Instrumentation of the ladder loop: the list of qualities it
attempts (in order) together with its result. -/
def ladderTrace {α : Type} (ops : PILOps α) (budget : Nat) (img : α) :
    List Nat → List Nat × Option (List Nat)
  | [] => ([], none)
  | q :: qs =>
    let data := ops.jpgBytes img q
    if data.length ≤ budget then ([q], some data)
    else ((q :: (ladderTrace ops budget img qs).1), (ladderTrace ops budget img qs).2)

/-- Instrumentation of the downscale loop: how many encode attempts it
makes. -/
def downscaleTrace {α : Type} (ops : PILOps α) (budget : Nat) : Nat → α × Nat × Nat → Nat
  | 0, _ => 0
  | n + 1, s =>
    let s2 := downscaleStep ops s
    if (ops.jpgBytes s2.1 65).length ≤ budget then 1 else 1 + downscaleTrace ops budget n s2

/-- Instrumentation: the total number of encode attempts
`optimize_image` makes. -/
def encodeAttempts {α : Type} (ops : PILOps α) (budget : Nat) (img0 : α) : Nat :=
  let img := normalizeRGB ops img0
  match (ladderTrace ops budget img JPEG_QUALITIES).2 with
  | some _ => (ladderTrace ops budget img JPEG_QUALITIES).1.length
  | none => (ladderTrace ops budget img JPEG_QUALITIES).1.length
      + downscaleTrace ops budget 3 (initState ops img)

/-- The compounding truncated dimension sequence of the downscale loop:
`dsIter k w` is the width (or height) after `k` rounds. -/
def dsIter : Nat → Nat → Nat
  | 0, w => w
  | k + 1, w => 96 * dsIter k w / 100

/-! ### Concrete instances used by the witnesses -/

/-- A toy image type for exercising the abstract encoder: a size and a
mode string. -/
structure TImg where
  w : Nat
  h : Nat
  m : String

/-- Toy PIL operations: the "encoding" at quality `q` is a zero-filled
buffer of `w * h * q / 100 + 2` bytes, so its size shrinks with quality
and with resolution and is never empty. -/
def toyOps : PILOps TImg :=
  ⟨fun im => im.m,
   fun im => ⟨im.w, im.h, "RGB"⟩,
   fun im => (im.w, im.h),
   fun im w h => ⟨w, h, im.m⟩,
   fun im q => List.replicate (im.w * im.h * q / 100 + 2) 0⟩

/-- A 10 x 10 RGB toy image. -/
def rgbToy : TImg := ⟨10, 10, "RGB"⟩

/-- A 2 x 2 uniform image (every pixel `(7, 7, 7)`). -/
def cimg6 : PImage := ⟨2, 2, fun _ _ => (7, 7, 7)⟩

/-- A 20 x 3 white image with a black block on columns 16-17 of row 1. -/
def cimg7 : PImage :=
  ⟨20, 3, fun x y => if 16 ≤ x ∧ x < 18 ∧ y = 1 then (0, 0, 0) else (255, 255, 255)⟩

/-- A 3 x 1 image: background pixel `(0, 0, 0)` at x = 0, a strong pixel
`(10, 10, 10)` at x = 1, a faint pixel `(1, 1, 1)` at x = 2.  The
contrast amplification of `crop_white_space` zeroes the faint pixel
(mean luminance 4, and `3 * 1 - 2 * 4 < 0`), so the box of the
amplified difference is narrower than the box of the raw difference. -/
def cimg8 : PImage :=
  ⟨3, 1, fun x _ => if x = 1 then (10, 10, 10) else if x = 2 then (1, 1, 1) else (0, 0, 0)⟩

/-- A 1 x 1 image whose pixel `(105, 105, 105)` differs from white by
150 on every channel. -/
def cimg9 : PImage := ⟨1, 1, fun _ _ => (105, 105, 105)⟩

/-- A 1 x 1 image whose pixel `(200, 155, 160)` differs from white by at
most 100 on every channel. -/
def cimg10 : PImage := ⟨1, 1, fun _ _ => (200, 155, 160)⟩

/-! ### Properties of the encoder loops -/

theorem ladderLoop_eq_find {α : Type} (ops : PILOps α) (budget : Nat) (img : α)
    (qs : List Nat) :
    ladderLoop ops budget img qs
      = (qs.find? fun x => decide ((ops.jpgBytes img x).length ≤ budget)).map
          (ops.jpgBytes img) := by
  induction qs with
  | nil => rfl
  | cons q qs ih =>
    simp only [ladderLoop]
    by_cases h : (ops.jpgBytes img q).length ≤ budget
    · rw [if_pos h, List.find?_cons_of_pos _ (by simpa using h)]
      rfl
    · rw [if_neg h, List.find?_cons_of_neg _ (by simpa using h), ih]

theorem ladderLoop_some_le {α : Type} (ops : PILOps α) (budget : Nat) (img : α)
    (qs : List Nat) (d : List Nat) (h : ladderLoop ops budget img qs = some d) :
    d.length ≤ budget := by
  induction qs with
  | nil => simp [ladderLoop] at h
  | cons q qs ih =>
    simp only [ladderLoop] at h
    by_cases hq : (ops.jpgBytes img q).length ≤ budget
    · rw [if_pos hq] at h
      cases h
      exact hq
    · rw [if_neg hq] at h
      exact ih h

theorem ladderLoop_none_forall {α : Type} (ops : PILOps α) (budget : Nat) (img : α)
    (qs : List Nat) (h : ladderLoop ops budget img qs = none) :
    ∀ x ∈ qs, ¬ (ops.jpgBytes img x).length ≤ budget := by
  induction qs with
  | nil => simp
  | cons q qs ih =>
    simp only [ladderLoop] at h
    by_cases hq : (ops.jpgBytes img q).length ≤ budget
    · rw [if_pos hq] at h
      cases h
    · rw [if_neg hq] at h
      intro x hx
      rcases List.mem_cons.mp hx with rfl | hx
      · exact hq
      · exact ih h x hx

theorem ladderTrace_snd {α : Type} (ops : PILOps α) (budget : Nat) (img : α)
    (qs : List Nat) :
    (ladderTrace ops budget img qs).2 = ladderLoop ops budget img qs := by
  induction qs with
  | nil => rfl
  | cons q qs ih =>
    by_cases h : (ops.jpgBytes img q).length ≤ budget
    · simp [ladderTrace, ladderLoop, h]
    · simp [ladderTrace, ladderLoop, h, ih]

theorem ladderTrace_fst_of_find_eq_some {α : Type} (ops : PILOps α) (budget : Nat)
    (img : α) (qs : List Nat) (q : Nat)
    (h : qs.find? (fun x => decide ((ops.jpgBytes img x).length ≤ budget)) = some q) :
    (ladderTrace ops budget img qs).1
      = qs.takeWhile (fun x => !decide ((ops.jpgBytes img x).length ≤ budget)) ++ [q] := by
  induction qs with
  | nil => simp at h
  | cons q' qs ih =>
    by_cases hq : (ops.jpgBytes img q').length ≤ budget
    · rw [List.find?_cons_of_pos _ (by simpa using hq)] at h
      obtain rfl : q' = q := by simpa using h
      simp [ladderTrace, hq, List.takeWhile_cons]
    · rw [List.find?_cons_of_neg _ (by simpa using hq)] at h
      simp [ladderTrace, hq, List.takeWhile_cons, ih h]

theorem ladderTrace_fst_of_all_fail {α : Type} (ops : PILOps α) (budget : Nat)
    (img : α) (qs : List Nat)
    (h : ∀ x ∈ qs, ¬ (ops.jpgBytes img x).length ≤ budget) :
    (ladderTrace ops budget img qs).1 = qs := by
  induction qs with
  | nil => rfl
  | cons q qs ih =>
    have hq := h q (by simp)
    simp [ladderTrace, hq, ih (fun x hx => h x (by simp [hx]))]

theorem downscaleLoop_succ {α : Type} (ops : PILOps α) (budget : Nat) (n : Nat)
    (s : α × Nat × Nat) (d : List Nat) :
    downscaleLoop ops budget (n + 1) s d
      = if (ops.jpgBytes (downscaleStep ops s).1 65).length ≤ budget
        then ops.jpgBytes (downscaleStep ops s).1 65
        else downscaleLoop ops budget n (downscaleStep ops s)
          (ops.jpgBytes (downscaleStep ops s).1 65) := rfl

theorem downscaleTrace_succ {α : Type} (ops : PILOps α) (budget : Nat) (n : Nat)
    (s : α × Nat × Nat) :
    downscaleTrace ops budget (n + 1) s
      = if (ops.jpgBytes (downscaleStep ops s).1 65).length ≤ budget
        then 1
        else 1 + downscaleTrace ops budget n (downscaleStep ops s) := rfl

theorem downscaleLoop_all_fail {α : Type} (ops : PILOps α) (budget : Nat) :
    ∀ (n : Nat) (s : α × Nat × Nat) (d : List Nat),
      (∀ j < n + 1, ¬ (ops.jpgBytes ((downscaleStep ops)^[j + 1] s).1 65).length ≤ budget) →
      downscaleLoop ops budget (n + 1) s d
        = ops.jpgBytes ((downscaleStep ops)^[n + 1] s).1 65 := by
  intro n
  induction n with
  | zero =>
    intro s d hf
    have h0 := hf 0 (by omega)
    rw [Function.iterate_one] at h0
    rw [Function.iterate_one]
    simp only [downscaleLoop]
    rw [if_neg h0]
  | succ n ih =>
    intro s d hf
    have h0 := hf 0 (by omega)
    rw [Function.iterate_one] at h0
    rw [downscaleLoop_succ, if_neg h0]
    rw [ih (downscaleStep ops s) (ops.jpgBytes (downscaleStep ops s).1 65)
      (fun j hj => by
        have hs := hf (j + 1) (by omega)
        rwa [Function.iterate_succ_apply] at hs)]
    rw [← Function.iterate_succ_apply]

theorem downscaleLoop_first_success {α : Type} (ops : PILOps α) (budget : Nat) :
    ∀ (n : Nat) (s : α × Nat × Nat) (d : List Nat) (i : Nat), i < n →
      (∀ j < i, ¬ (ops.jpgBytes ((downscaleStep ops)^[j + 1] s).1 65).length ≤ budget) →
      (ops.jpgBytes ((downscaleStep ops)^[i + 1] s).1 65).length ≤ budget →
      downscaleLoop ops budget n s d
        = ops.jpgBytes ((downscaleStep ops)^[i + 1] s).1 65 := by
  intro n
  induction n with
  | zero =>
    intro s d i hi
    omega
  | succ n ih =>
    intro s d i hi hbad hok
    cases i with
    | zero =>
      rw [Function.iterate_one] at hok ⊢
      simp only [downscaleLoop]
      rw [if_pos hok]
    | succ i =>
      have h0 := hbad 0 (by omega)
      rw [Function.iterate_one] at h0
      simp only [downscaleLoop]
      rw [if_neg h0]
      rw [ih (downscaleStep ops s) (ops.jpgBytes (downscaleStep ops s).1 65) i
        (by omega)
        (fun j hj => by
          have hs := hbad (j + 1) (by omega)
          rwa [Function.iterate_succ_apply] at hs)
        (by rwa [Function.iterate_succ_apply] at hok)]
      rw [← Function.iterate_succ_apply]

theorem downscaleLoop_le_or_last {α : Type} (ops : PILOps α) (budget : Nat) :
    ∀ (n : Nat) (s : α × Nat × Nat) (d : List Nat),
      (downscaleLoop ops budget (n + 1) s d).length ≤ budget ∨
      downscaleLoop ops budget (n + 1) s d
        = ops.jpgBytes ((downscaleStep ops)^[n + 1] s).1 65 := by
  intro n
  induction n with
  | zero =>
    intro s d
    by_cases h : (ops.jpgBytes (downscaleStep ops s).1 65).length ≤ budget
    · left
      simp only [downscaleLoop]
      rw [if_pos h]
      exact h
    · right
      rw [Function.iterate_one]
      simp only [downscaleLoop]
      rw [if_neg h]
  | succ n ih =>
    intro s d
    by_cases h : (ops.jpgBytes (downscaleStep ops s).1 65).length ≤ budget
    · left
      simp only [downscaleLoop]
      rw [if_pos h]
      exact h
    · have step : downscaleLoop ops budget (n + 1 + 1) s d
          = downscaleLoop ops budget (n + 1) (downscaleStep ops s)
              (ops.jpgBytes (downscaleStep ops s).1 65) := by
        rw [downscaleLoop_succ, if_neg h]
      rcases ih (downscaleStep ops s) (ops.jpgBytes (downscaleStep ops s).1 65) with hle | heq
      · left
        rw [step]
        exact hle
      · right
        rw [step, heq, ← Function.iterate_succ_apply]

theorem downscaleTrace_all_fail {α : Type} (ops : PILOps α) (budget : Nat) :
    ∀ (n : Nat) (s : α × Nat × Nat),
      (∀ j < n, ¬ (ops.jpgBytes ((downscaleStep ops)^[j + 1] s).1 65).length ≤ budget) →
      downscaleTrace ops budget n s = n := by
  intro n
  induction n with
  | zero => intro s _; rfl
  | succ n ih =>
    intro s hf
    have h0 := hf 0 (by omega)
    rw [Function.iterate_one] at h0
    rw [downscaleTrace_succ, if_neg h0]
    rw [ih (downscaleStep ops s) (fun j hj => by
      have hs := hf (j + 1) (by omega)
      rwa [Function.iterate_succ_apply] at hs)]
    omega

theorem downscaleStep_iterate_dims {α : Type} (ops : PILOps α) (img : α) (w h : Nat) :
    ∀ k, ((downscaleStep ops)^[k] (img, w, h)).2 = (dsIter k w, dsIter k h) := by
  intro k
  induction k with
  | zero => rfl
  | succ k ih =>
    rw [Function.iterate_succ_apply']
    have ih1 : ((downscaleStep ops)^[k] (img, w, h)).2.1 = dsIter k w := by rw [ih]
    have ih2 : ((downscaleStep ops)^[k] (img, w, h)).2.2 = dsIter k h := by rw [ih]
    simp only [downscaleStep, ih1, ih2, dsIter]

/-! ### Claims about the encoder -/

/-- Claim C1: for every RGB image and every byte budget, `optimize_image`
tries the quality ladder `[95, 85, 75, 65, 55]` in exactly that
descending order and returns the very first encoding whose byte length
is within the budget: when `q` is the first ladder quality whose
encoding fits, the result is that encoding, and the attempted qualities
are exactly the failing prefix of the ladder followed by `q` — no lower
quality is attempted after the success. -/
theorem optimize_image_first_fit {α : Type} (ops : PILOps α) (budget : Nat) (img : α)
    (hRGB : ops.mode img = "RGB") (q : Nat)
    (hq : JPEG_QUALITIES.find? (fun x => decide ((ops.jpgBytes img x).length ≤ budget))
      = some q) :
    JPEG_QUALITIES = [95, 85, 75, 65, 55] ∧
    optimize_image ops budget img = ops.jpgBytes img q ∧
    (ladderTrace ops budget img JPEG_QUALITIES).1
      = JPEG_QUALITIES.takeWhile
          (fun x => !decide ((ops.jpgBytes img x).length ≤ budget)) ++ [q] := by
  have hn : normalizeRGB ops img = img := by simp [normalizeRGB, hRGB]
  refine ⟨rfl, ?_, ladderTrace_fst_of_find_eq_some ops budget img _ q hq⟩
  simp only [optimize_image, hn, ladderLoop_eq_find, hq, Option.map_some']

/-- Witness for C1 at the toy encoder with budget 90: quality 95 encodes
to 97 bytes (too big), quality 85 to 87 bytes (fits), so the first
fitting quality is 85 and the attempts stop there. -/
theorem optimize_image_first_fit_app :
    toyOps.mode rgbToy = "RGB" ∧
    JPEG_QUALITIES.find? (fun x => decide ((toyOps.jpgBytes rgbToy x).length ≤ 90))
      = some 85 ∧
    (JPEG_QUALITIES = [95, 85, 75, 65, 55] ∧
      optimize_image toyOps 90 rgbToy = toyOps.jpgBytes rgbToy 85 ∧
      (ladderTrace toyOps 90 rgbToy JPEG_QUALITIES).1
        = JPEG_QUALITIES.takeWhile
            (fun x => !decide ((toyOps.jpgBytes rgbToy x).length ≤ 90)) ++ [85]) :=
  ⟨rfl, by decide, optimize_image_first_fit toyOps 90 rgbToy rfl 85 (by decide)⟩

/-- Claim C2: for every image and every budget at least the byte length
of the quality-55 encoding (the lowest ladder quality) of the
RGB-normalized image, `optimize_image` returns a buffer whose byte
length is within the budget. -/
theorem optimize_image_budget_met {α : Type} (ops : PILOps α) (budget : Nat) (img0 : α)
    (h55 : (ops.jpgBytes (normalizeRGB ops img0) 55).length ≤ budget) :
    (optimize_image ops budget img0).length ≤ budget := by
  simp only [optimize_image]
  cases hl : ladderLoop ops budget (normalizeRGB ops img0) JPEG_QUALITIES with
  | some d => exact ladderLoop_some_le ops budget _ _ d hl
  | none =>
    have h := ladderLoop_none_forall ops budget _ _ hl 55 (by simp [JPEG_QUALITIES])
    exact absurd h55 h

/-- Witness for C2 at the toy encoder with budget 60: the quality-55
encoding has 57 bytes. -/
theorem optimize_image_budget_met_app :
    (toyOps.jpgBytes (normalizeRGB toyOps rgbToy) 55).length ≤ 60 ∧
    (optimize_image toyOps 60 rgbToy).length ≤ 60 :=
  ⟨by decide, optimize_image_budget_met toyOps 60 rgbToy (by decide)⟩

/-- Claim C3: when no ladder quality and no downscale round fits the
budget, `optimize_image` makes exactly 5 ladder encode attempts plus
exactly 3 downscale encode attempts (8 in total), returns the
quality-65 encoding of the thrice-downscaled image (the last attempt,
whose size may exceed the budget), and — the modelled encoder never
returning an empty buffer — the result is non-empty; the function is
total, so no exception is raised. -/
theorem optimize_image_exhausted {α : Type} (ops : PILOps α) (budget : Nat) (img0 : α)
    (hlad : ∀ x ∈ JPEG_QUALITIES,
      ¬ (ops.jpgBytes (normalizeRGB ops img0) x).length ≤ budget)
    (hdown : ∀ j < 3,
      ¬ (ops.jpgBytes ((downscaleStep ops)^[j + 1]
          (initState ops (normalizeRGB ops img0))).1 65).length ≤ budget)
    (hne : ∀ (im : α) (q : Nat), ops.jpgBytes im q ≠ []) :
    optimize_image ops budget img0
      = ops.jpgBytes ((downscaleStep ops)^[3]
          (initState ops (normalizeRGB ops img0))).1 65 ∧
    encodeAttempts ops budget img0 = 8 ∧
    optimize_image ops budget img0 ≠ [] := by
  have hnone : ladderLoop ops budget (normalizeRGB ops img0) JPEG_QUALITIES = none := by
    rw [ladderLoop_eq_find]
    rw [List.find?_eq_none.mpr (fun x hx => by simpa using hlad x hx)]
    rfl
  have hmain : optimize_image ops budget img0
      = ops.jpgBytes ((downscaleStep ops)^[3]
          (initState ops (normalizeRGB ops img0))).1 65 := by
    simp only [optimize_image, hnone]
    exact downscaleLoop_all_fail ops budget 2 _ _ hdown
  refine ⟨hmain, ?_, ?_⟩
  · simp only [encodeAttempts, ladderTrace_snd, hnone]
    rw [ladderTrace_fst_of_all_fail ops budget _ _ hlad]
    rw [downscaleTrace_all_fail ops budget 3 _ hdown]
    rfl
  · rw [hmain]
    exact hne _ _

/-- Witness for C3 at the toy encoder with budget 0: every encoding has
at least 2 bytes, so every attempt fails. -/
theorem optimize_image_exhausted_app :
    (∀ x ∈ JPEG_QUALITIES,
      ¬ (toyOps.jpgBytes (normalizeRGB toyOps rgbToy) x).length ≤ 0) ∧
    (∀ j < 3,
      ¬ (toyOps.jpgBytes ((downscaleStep toyOps)^[j + 1]
          (initState toyOps (normalizeRGB toyOps rgbToy))).1 65).length ≤ 0) ∧
    (optimize_image toyOps 0 rgbToy
        = toyOps.jpgBytes ((downscaleStep toyOps)^[3]
            (initState toyOps (normalizeRGB toyOps rgbToy))).1 65 ∧
      encodeAttempts toyOps 0 rgbToy = 8 ∧
      optimize_image toyOps 0 rgbToy ≠ []) :=
  ⟨by decide, by decide,
    optimize_image_exhausted toyOps 0 rgbToy (by decide) (by decide)
      (fun im q => by simp [toyOps, List.replicate_eq_nil_iff])⟩

/-- Claim C4: when the whole quality ladder fails, `optimize_image`
enters a downscale loop of at most 3 rounds; the tracked width and
height compound by the truncated factor `96 / 100` each round (the
`dsIter` sequence), each round re-encodes the resized image at fallback
quality 65, and the loop returns as soon as an encoding fits the
budget.  Round `i + 1` (with `i < 3`) is the first fitting round. -/
theorem optimize_image_downscale_search {α : Type} (ops : PILOps α) (budget : Nat)
    (img0 : α) (i : Nat) (hi : i < 3)
    (hlad : ∀ x ∈ JPEG_QUALITIES,
      ¬ (ops.jpgBytes (normalizeRGB ops img0) x).length ≤ budget)
    (hbad : ∀ j < i,
      ¬ (ops.jpgBytes ((downscaleStep ops)^[j + 1]
          (initState ops (normalizeRGB ops img0))).1 65).length ≤ budget)
    (hok : (ops.jpgBytes ((downscaleStep ops)^[i + 1]
        (initState ops (normalizeRGB ops img0))).1 65).length ≤ budget) :
    optimize_image ops budget img0
      = ops.jpgBytes ((downscaleStep ops)^[i + 1]
          (initState ops (normalizeRGB ops img0))).1 65 ∧
    ∀ k, ((downscaleStep ops)^[k] (initState ops (normalizeRGB ops img0))).2
      = (dsIter k (ops.size (normalizeRGB ops img0)).1,
         dsIter k (ops.size (normalizeRGB ops img0)).2) := by
  have hnone : ladderLoop ops budget (normalizeRGB ops img0) JPEG_QUALITIES = none := by
    rw [ladderLoop_eq_find]
    rw [List.find?_eq_none.mpr (fun x hx => by simpa using hlad x hx)]
    rfl
  constructor
  · simp only [optimize_image, hnone]
    exact downscaleLoop_first_success ops budget 3 _ _ i hi hbad hok
  · exact downscaleStep_iterate_dims ops (normalizeRGB ops img0) _ _

/-- Witness for C4 at the toy encoder with budget 50: the ladder
encodings have 97, 87, 77, 67, 57 bytes (all fail), round 1 resizes to
9 x 9 (54 bytes at quality 65, fails) and round 2 to 8 x 8 (43 bytes,
fits), so the first fitting round is i = 1. -/
theorem optimize_image_downscale_search_app :
    (∀ x ∈ JPEG_QUALITIES,
      ¬ (toyOps.jpgBytes (normalizeRGB toyOps rgbToy) x).length ≤ 50) ∧
    (∀ j < 1,
      ¬ (toyOps.jpgBytes ((downscaleStep toyOps)^[j + 1]
          (initState toyOps (normalizeRGB toyOps rgbToy))).1 65).length ≤ 50) ∧
    (toyOps.jpgBytes ((downscaleStep toyOps)^[1 + 1]
        (initState toyOps (normalizeRGB toyOps rgbToy))).1 65).length ≤ 50 ∧
    (optimize_image toyOps 50 rgbToy
        = toyOps.jpgBytes ((downscaleStep toyOps)^[1 + 1]
            (initState toyOps (normalizeRGB toyOps rgbToy))).1 65 ∧
      ∀ k, ((downscaleStep toyOps)^[k] (initState toyOps (normalizeRGB toyOps rgbToy))).2
        = (dsIter k (toyOps.size (normalizeRGB toyOps rgbToy)).1,
           dsIter k (toyOps.size (normalizeRGB toyOps rgbToy)).2)) :=
  ⟨by decide, by decide, by decide,
    optimize_image_downscale_search toyOps 50 rgbToy 1 (by decide) (by decide)
      (by decide) (by decide)⟩

/-- Claim C5: invariant of `optimize_image` — every returned buffer was
measured against the budget before being returned, with the single
exception of the final best-effort return after the 3 downscale rounds:
the result is within budget, or it is exactly the quality-65 encoding
of the thrice-downscaled image (the final attempt). -/
theorem optimize_image_guarded {α : Type} (ops : PILOps α) (budget : Nat) (img0 : α) :
    (optimize_image ops budget img0).length ≤ budget ∨
    optimize_image ops budget img0
      = ops.jpgBytes ((downscaleStep ops)^[3]
          (initState ops (normalizeRGB ops img0))).1 65 := by
  simp only [optimize_image]
  cases hl : ladderLoop ops budget (normalizeRGB ops img0) JPEG_QUALITIES with
  | some d => exact Or.inl (ladderLoop_some_le ops budget _ _ d hl)
  | none => exact downscaleLoop_le_or_last ops budget 2 _ _

/-! ### Properties of the trimmer primitives -/

theorem mem_contentCols (img : PImage) (x : Nat) :
    x ∈ contentCols img
      ↔ x < img.width ∧ ∃ y, y < img.height ∧ pxNonzero (img.px x y) = true := by
  simp [contentCols, Finset.mem_filter, Finset.mem_range]

theorem mem_contentRows (img : PImage) (y : Nat) :
    y ∈ contentRows img
      ↔ y < img.height ∧ ∃ x, x < img.width ∧ pxNonzero (img.px x y) = true := by
  simp [contentRows, Finset.mem_filter, Finset.mem_range]

theorem getbbox_eq_none (img : PImage)
    (h : ∀ x < img.width, ∀ y < img.height, pxNonzero (img.px x y) = false) :
    getbbox img = none := by
  rw [getbbox, dif_neg]
  rintro ⟨⟨x, hx⟩, -⟩
  rw [mem_contentCols] at hx
  obtain ⟨hxw, y, hy, hnz⟩ := hx
  rw [h x hxw y hy] at hnz
  cases hnz

theorem Ico_min' (a b : Nat) (h : a < b) (hne : (Finset.Ico a b).Nonempty) :
    (Finset.Ico a b).min' hne = a := by
  apply le_antisymm
  · exact Finset.min'_le _ _ (Finset.mem_Ico.mpr ⟨le_refl a, h⟩)
  · exact Finset.le_min' _ _ _ (fun y hy => (Finset.mem_Ico.mp hy).1)

theorem Ico_max' (a b : Nat) (h : a < b) (hne : (Finset.Ico a b).Nonempty) :
    (Finset.Ico a b).max' hne = b - 1 := by
  apply le_antisymm
  · apply Finset.max'_le
    intro y hy
    have := (Finset.mem_Ico.mp hy).2
    omega
  · apply Finset.le_max'
    rw [Finset.mem_Ico]
    omega

theorem getbbox_block (D : PImage) (a0 a1 b0 b1 : Nat)
    (ha : a0 < a1) (hb : b0 < b1) (haw : a1 ≤ D.width) (hbh : b1 ≤ D.height)
    (hchar : ∀ x < D.width, ∀ y < D.height,
      (pxNonzero (D.px x y) = true ↔ a0 ≤ x ∧ x < a1 ∧ b0 ≤ y ∧ y < b1)) :
    getbbox D = some (a0, b0, a1, b1) := by
  have hcols : contentCols D = Finset.Ico a0 a1 := by
    ext x
    rw [mem_contentCols, Finset.mem_Ico]
    constructor
    · rintro ⟨hxw, y, hy, hnz⟩
      have hc := (hchar x hxw y hy).mp hnz
      exact ⟨hc.1, hc.2.1⟩
    · rintro ⟨h0, h1⟩
      have hxw : x < D.width := lt_of_lt_of_le h1 haw
      have hyh : b0 < D.height := lt_of_lt_of_le hb hbh
      exact ⟨hxw, b0, hyh, (hchar x hxw b0 hyh).mpr ⟨h0, h1, le_refl b0, hb⟩⟩
  have hrows : contentRows D = Finset.Ico b0 b1 := by
    ext y
    rw [mem_contentRows, Finset.mem_Ico]
    constructor
    · rintro ⟨hyh, x, hx, hnz⟩
      have hc := (hchar x hx y hyh).mp hnz
      exact ⟨hc.2.2.1, hc.2.2.2⟩
    · rintro ⟨h0, h1⟩
      have hyh : y < D.height := lt_of_lt_of_le h1 hbh
      have hxw : a0 < D.width := lt_of_lt_of_le ha haw
      exact ⟨hyh, a0, hxw, (hchar a0 hxw y hyh).mpr ⟨le_refl a0, ha, h0, h1⟩⟩
  have hne1 : (Finset.Ico a0 a1).Nonempty := Finset.nonempty_Ico.mpr ha
  have hne2 : (Finset.Ico b0 b1).Nonempty := Finset.nonempty_Ico.mpr hb
  simp only [getbbox, hcols, hrows]
  rw [dif_pos ⟨hne1, hne2⟩]
  rw [Ico_min' a0 a1 ha, Ico_max' a0 a1 ha, Ico_min' b0 b1 hb, Ico_max' b0 b1 hb]
  rw [Nat.sub_add_cancel (by omega : 1 ≤ a1), Nat.sub_add_cancel (by omega : 1 ≤ b1)]

theorem pxNonzero_eq_false_iff (c : Nat × Nat × Nat) :
    pxNonzero c = false ↔ (c.1 = 0 ∧ c.2.1 = 0 ∧ c.2.2 = 0) := by
  rw [pxNonzero, decide_eq_false_iff_not, not_not, Prod.ext_iff, Prod.ext_iff]

theorem pxNonzero_eq_true_iff (c : Nat × Nat × Nat) :
    pxNonzero c = true ↔ ¬ (c.1 = 0 ∧ c.2.1 = 0 ∧ c.2.2 = 0) := by
  rw [← pxNonzero_eq_false_iff]
  cases pxNonzero c <;> simp

theorem blendChannel_zero (m : Nat) : blendChannel m 0 = 0 := by
  unfold blendChannel
  omega

theorem chopsAddSelfOffset_le255 (c : Nat) (hc : c ≤ 255) :
    chopsAddSelfOffset (-100) c = c - 100 := by
  unfold chopsAddSelfOffset
  omega

theorem dist255 (c : Nat) (hc : c ≤ 255) : Nat.dist c 255 = 255 - c := by
  have h : Nat.dist c 255 = c - 255 + (255 - c) := rfl
  omega

theorem trimDiff_px (img : PImage) (x y : Nat)
    (hr : (img.px x y).1 ≤ 255) (hg : (img.px x y).2.1 ≤ 255)
    (hbl : (img.px x y).2.2 ≤ 255) :
    (trimDiff img).px x y
      = (155 - (img.px x y).1, 155 - (img.px x y).2.1, 155 - (img.px x y).2.2) := by
  show (chopsAddSelfOffset (-100) (rgbDiff (img.px x y) (255, 255, 255)).1,
        chopsAddSelfOffset (-100) (rgbDiff (img.px x y) (255, 255, 255)).2.1,
        chopsAddSelfOffset (-100) (rgbDiff (img.px x y) (255, 255, 255)).2.2) = _
  simp only [rgbDiff]
  rw [dist255 _ hr, dist255 _ hg, dist255 _ hbl]
  rw [chopsAddSelfOffset_le255 _ (by omega), chopsAddSelfOffset_le255 _ (by omega),
    chopsAddSelfOffset_le255 _ (by omega)]
  simp only [Prod.mk.injEq]
  refine ⟨by omega, by omega, by omega⟩

/-! ### Claims about the trimmers -/

/-- Claim C6: `crop_white_space` is a total function (it cannot raise);
on a fully uniform input it returns the original image unchanged, and
whenever the computed bounding box equals the full image it returns an
image with dimensions identical to the input. -/
theorem crop_white_space_blank_safe (img : PImage)
    (hw : 0 < img.width) (hh : 0 < img.height) :
    ((∀ x < img.width, ∀ y < img.height, img.px x y = img.px 0 0) →
      crop_white_space img = img) ∧
    (getbbox (cropDiff img) = some (0, 0, img.width, img.height) →
      (crop_white_space img).width = img.width ∧
        (crop_white_space img).height = img.height) := by
  constructor
  · intro hu
    have hz : ∀ x < (cropDiff img).width, ∀ y < (cropDiff img).height,
        pxNonzero ((cropDiff img).px x y) = false := by
      intro x hx y hy
      have hdz : (difference img (uniformImage img.width img.height (img.px 0 0))).px x y
          = (0, 0, 0) := by
        show rgbDiff (img.px x y) (img.px 0 0) = (0, 0, 0)
        rw [hu x hx y hy]
        simp [rgbDiff, Nat.dist_self]
      show pxNonzero
        (blendChannel _ ((difference img (uniformImage img.width img.height (img.px 0 0))).px x y).1,
         blendChannel _ ((difference img (uniformImage img.width img.height (img.px 0 0))).px x y).2.1,
         blendChannel _ ((difference img (uniformImage img.width img.height (img.px 0 0))).px x y).2.2)
        = false
      rw [hdz]
      rw [pxNonzero_eq_false_iff]
      refine ⟨blendChannel_zero _, blendChannel_zero _, blendChannel_zero _⟩
    have hb : getbbox (cropDiff img) = none := getbbox_eq_none _ hz
    simp [crop_white_space, hb]
  · intro hbox
    simp only [crop_white_space, hbox]
    constructor
    · show img.width - 0 = img.width
      omega
    · show img.height - 0 = img.height
      omega

/-- Witness for C6 at the uniform 2 x 2 image `cimg6`. -/
theorem crop_white_space_blank_safe_app :
    0 < cimg6.width ∧ 0 < cimg6.height ∧
    (∀ x < cimg6.width, ∀ y < cimg6.height, cimg6.px x y = cimg6.px 0 0) ∧
    crop_white_space cimg6 = cimg6 :=
  ⟨by decide, by decide, by decide,
    (crop_white_space_blank_safe cimg6 (by decide) (by decide)).1 (by decide)⟩

/-- Claim C7: for an image consisting of a single rectangular block of
content (pixels whose amplified difference from white survives the
threshold) on an otherwise near-white background, `trim_white_space`
detects exactly that block as the bounding box and returns the image
cropped to the block expanded by the padding 15 on each side, with the
left/top clamped at 0 (natural subtraction) and the right/bottom
clamped at the image width and height. -/
theorem trim_white_space_block (img : PImage) (a0 a1 b0 b1 : Nat)
    (ha : a0 < a1) (hb : b0 < b1) (haw : a1 ≤ img.width) (hbh : b1 ≤ img.height)
    (hwf : ∀ x < img.width, ∀ y < img.height,
      (img.px x y).1 ≤ 255 ∧ (img.px x y).2.1 ≤ 255 ∧ (img.px x y).2.2 ≤ 255)
    (hin : ∀ x < a1, ∀ y < b1, a0 ≤ x → b0 ≤ y →
      ((img.px x y).1 < 155 ∨ (img.px x y).2.1 < 155 ∨ (img.px x y).2.2 < 155))
    (hout : ∀ x < img.width, ∀ y < img.height,
      ¬ (a0 ≤ x ∧ x < a1 ∧ b0 ≤ y ∧ y < b1) →
      (155 ≤ (img.px x y).1 ∧ 155 ≤ (img.px x y).2.1 ∧ 155 ≤ (img.px x y).2.2)) :
    getbbox (trimDiff img) = some (a0, b0, a1, b1) ∧
    trim_white_space img
      = crop img (a0 - 15, b0 - 15, min img.width (a1 + 15), min img.height (b1 + 15)) ∧
    (trim_white_space img).width = min img.width (a1 + 15) - (a0 - 15) ∧
    (trim_white_space img).height = min img.height (b1 + 15) - (b0 - 15) := by
  have hchar : ∀ x < (trimDiff img).width, ∀ y < (trimDiff img).height,
      (pxNonzero ((trimDiff img).px x y) = true ↔ a0 ≤ x ∧ x < a1 ∧ b0 ≤ y ∧ y < b1) := by
    intro x hx y hy
    obtain ⟨hr, hg, hbb⟩ := hwf x hx y hy
    rw [trimDiff_px img x y hr hg hbb, pxNonzero_eq_true_iff]
    dsimp only
    constructor
    · intro hnz
      by_contra hOut
      obtain ⟨h1, h2, h3⟩ := hout x hx y hy hOut
      exact hnz ⟨by omega, by omega, by omega⟩
    · rintro ⟨h1, h2, h3, h4⟩
      have hin2 := hin x h2 y h4 h1 h3
      intro hz
      obtain ⟨z1, z2, z3⟩ := hz
      omega
  have hbox : getbbox (trimDiff img) = some (a0, b0, a1, b1) :=
    getbbox_block (trimDiff img) a0 a1 b0 b1 ha hb haw hbh hchar
  have hcalc : ((max 0 ((a0 : Int) - 15)).toNat, (max 0 ((b0 : Int) - 15)).toNat,
      (min (img.width : Int) ((a1 : Int) + 15)).toNat,
      (min (img.height : Int) ((b1 : Int) + 15)).toNat)
      = (a0 - 15, b0 - 15, min img.width (a1 + 15), min img.height (b1 + 15)) := by
    simp only [Prod.mk.injEq]
    refine ⟨by omega, by omega, by omega, by omega⟩
  have hmain : trim_white_space img
      = crop img (a0 - 15, b0 - 15, min img.width (a1 + 15), min img.height (b1 + 15)) := by
    simp only [trim_white_space, hbox]
    rw [hcalc]
  refine ⟨hbox, hmain, ?_, ?_⟩
  · rw [hmain]
    rfl
  · rw [hmain]
    rfl

/-- Witness for C7 at `cimg7`: the black block on columns 16-17 of
row 1 is detected as box (16, 1, 18, 2); padding by 15 clamps to
(1, 0, 20, 3). -/
theorem trim_white_space_block_app :
    getbbox (trimDiff cimg7) = some (16, 1, 18, 2) ∧
    trim_white_space cimg7
      = crop cimg7 (16 - 15, 1 - 15, min 20 (18 + 15), min 3 (2 + 15)) ∧
    (trim_white_space cimg7).width = min 20 (18 + 15) - (16 - 15) ∧
    (trim_white_space cimg7).height = min 3 (2 + 15) - (1 - 15) :=
  trim_white_space_block cimg7 16 18 1 2 (by decide) (by decide) (by decide) (by decide)
    (by decide) (by decide) (by decide)

/-- Claim C8 as stated is false: on `cimg8` the contrast amplification
zeroes the faint pixel at x = 2, so the box `crop_white_space` crops to,
`(1, 0, 2, 1)`, differs from the box of the raw per-pixel difference,
`(1, 0, 3, 1)`, and the cropped widths differ — the bounding box is not
extracted from the raw difference image. -/
theorem crop_white_space_rawdiff_cex :
    getbbox (cropDiff cimg8) = some (1, 0, 2, 1) ∧
    getbbox (difference cimg8 (uniformImage cimg8.width cimg8.height (cimg8.px 0 0)))
      = some (1, 0, 3, 1) ∧
    (crop_white_space cimg8).width = 1 ∧
    (crop_white_space_rawdiff cimg8).width = 2 := by
  decide

/-- Claim C8 amended: `crop_white_space` uses the (0, 0) pixel color as
the background reference — the raw difference image is the per-pixel
absolute difference between the input and the uniform image filled with
that color — and the bounding box it crops to is extracted from the
contrast-amplified (factor 3.0) version of that difference image. -/
theorem crop_white_space_bbox_source (img : PImage) :
    (∀ x y, (difference img (uniformImage img.width img.height (img.px 0 0))).px x y
        = rgbDiff (img.px x y) (img.px 0 0)) ∧
    crop_white_space img
      = match getbbox (contrast3 (difference img
          (uniformImage img.width img.height (img.px 0 0)))) with
        | some bbox => crop img bbox
        | none => img :=
  ⟨fun _ _ => rfl, rfl⟩

/-- Claim C9 as stated is false: at raw per-channel difference 150
(pixel `(105, 105, 105)` of `cimg9` against white), the amplification
of `trim_white_space` produces `50 = 150 - 100`, while the claimed
affine map `3.0 * d - 100` would clamp to 255. -/
theorem trim_amp_affine_cex :
    Nat.dist (cimg9.px 0 0).1 255 = 150 ∧
    (trimDiff cimg9).px 0 0 = (50, 50, 50) ∧
    affineAmp3 150 = 255 ∧
    chopsAddSelfOffset (-100) 150 ≠ affineAmp3 150 := by
  decide

/-- Claim C9 amended: the amplification `ImageChops.add(diff, diff,
2.0, -100)` applies to a raw per-pixel difference `d` the affine map
`(d + d) / 2.0 - 100 = d - 100` — scale 1.0 with bias −100, not scale
3.0 — clamped below at 0 (natural subtraction; the upper clamp at 255
is inactive for `d ≤ 255`). -/
theorem trim_amp_formula (d : Nat) (hd : d ≤ 255) :
    chopsAddSelfOffset (-100) d = d - 100 :=
  chopsAddSelfOffset_le255 d hd

/-- Witness for the amended C9 at difference 150: the amplified value
is 50. -/
theorem trim_amp_formula_app :
    150 ≤ 255 ∧ chopsAddSelfOffset (-100) 150 = 150 - 100 :=
  ⟨by decide, trim_amp_formula 150 (by decide)⟩

/-- Claim C10: in `trim_white_space` the amplified difference equals
`max(d - 100, 0)` per channel (`d` the raw difference from pure white,
and `_ - 100` is the truncated natural subtraction), so a pixel all of
whose channels differ from white by at most 100 amplifies to
`(0, 0, 0)` and contributes nothing to the bounding box: content
lighter than the threshold is cropped away. -/
theorem trimDiff_threshold (img : PImage) (x y : Nat)
    (hr : (img.px x y).1 ≤ 255) (hg : (img.px x y).2.1 ≤ 255)
    (hbl : (img.px x y).2.2 ≤ 255) :
    (trimDiff img).px x y
      = (Nat.dist (img.px x y).1 255 - 100, Nat.dist (img.px x y).2.1 255 - 100,
         Nat.dist (img.px x y).2.2 255 - 100) ∧
    (Nat.dist (img.px x y).1 255 ≤ 100 → Nat.dist (img.px x y).2.1 255 ≤ 100 →
      Nat.dist (img.px x y).2.2 255 ≤ 100 →
      pxNonzero ((trimDiff img).px x y) = false) := by
  have hpx := trimDiff_px img x y hr hg hbl
  rw [dist255 _ hr, dist255 _ hg, dist255 _ hbl]
  constructor
  · rw [hpx]
    simp only [Prod.mk.injEq]
    refine ⟨by omega, by omega, by omega⟩
  · intro h1 h2 h3
    rw [hpx, pxNonzero_eq_false_iff]
    dsimp only
    refine ⟨by omega, by omega, by omega⟩

/-- Witness for C10 at the 1 x 1 image `cimg10` with pixel
`(200, 155, 160)`: all channels are within 100 of white, so the
amplified pixel is zero and is not content. -/
theorem trimDiff_threshold_app :
    (cimg10.px 0 0).1 ≤ 255 ∧ (cimg10.px 0 0).2.1 ≤ 255 ∧ (cimg10.px 0 0).2.2 ≤ 255 ∧
    Nat.dist (cimg10.px 0 0).1 255 ≤ 100 ∧ Nat.dist (cimg10.px 0 0).2.1 255 ≤ 100 ∧
    Nat.dist (cimg10.px 0 0).2.2 255 ≤ 100 ∧
    pxNonzero ((trimDiff cimg10).px 0 0) = false :=
  ⟨by decide, by decide, by decide, by decide, by decide, by decide,
    (trimDiff_threshold cimg10 0 0 (by decide) (by decide) (by decide)).2
      (by decide) (by decide) (by decide)⟩

end VD
